import Mathlib

/-!
Verification of the core ray-tracing pipeline of the `rtc` crate.

The Rust source works on IEEE-754 `f64`. The embedding uses exact rational
arithmetic (`ℚ`) for the geometric and shading pipeline: every numeric literal
appearing in the verified scenarios (0.1, 0.9, 0.25, 1e-5, ...) is handled
exactly by the same formulas in both systems, and no claim under scrutiny
depends on rounding. The special values of `f64` (NaN, infinities, the negative
zero) matter for exactly one operation, `IntersectionList::hit`, whose filter
is `t.is_finite() && t.is_sign_positive()`; for that operation a dedicated type
`F` with those special values is used.

`f64::sqrt` is modelled by `ratSqrt`, which is exact on perfect squares of
rationals (the only square roots taken in the verified scenarios) and is
always nonnegative, as the square root of a nonnegative `f64` is.

Panics (`unwrap`, `expect` on a missing value) are modelled by
`Except Unit`: `Except.error ()` is a panic, `Except.ok` a normal return.
-/

/-- Model of `f64::sqrt` on rationals: for `q ≥ 0` it returns
`Nat.sqrt num / Nat.sqrt den` of the reduced fraction, which is the exact
square root whenever one exists in `ℚ`; on negative inputs the model returns 0
(the source never takes the square root of a negative number on the paths
verified here, since `discriminant < 0` is tested first). -/
def ratSqrt (q : ℚ) : ℚ :=
  if q < 0 then 0 else (Nat.sqrt q.num.toNat : ℚ) / (Nat.sqrt q.den : ℚ)

theorem ratSqrt_nonneg (q : ℚ) : 0 ≤ ratSqrt q := by
  unfold ratSqrt
  split
  · exact le_refl 0
  · exact div_nonneg (Nat.cast_nonneg _) (Nat.cast_nonneg _)

/-- Source `src/math/point.rs`: `struct Point(f64, f64, f64)`, homogeneous
coordinate `w = 1`. -/
structure Point where
  x : ℚ
  y : ℚ
  z : ℚ
deriving DecidableEq, Repr

/-- Source `src/math/vec3.rs`: `struct Vec3(f64, f64, f64)`, homogeneous
coordinate `w = 0`. -/
structure Vec3 where
  x : ℚ
  y : ℚ
  z : ℚ
deriving DecidableEq, Repr

/-- Source `src/visuals/color.rs`: `struct Color(f64, f64, f64)`. -/
structure Color where
  r : ℚ
  g : ℚ
  b : ℚ
deriving DecidableEq, Repr

instance : Add Vec3 := ⟨fun a b => ⟨a.x + b.x, a.y + b.y, a.z + b.z⟩⟩

instance : Sub Vec3 := ⟨fun a b => ⟨a.x - b.x, a.y - b.y, a.z - b.z⟩⟩

instance : Neg Vec3 := ⟨fun a => ⟨-a.x, -a.y, -a.z⟩⟩

instance : HMul Vec3 ℚ Vec3 := ⟨fun v s => ⟨v.x * s, v.y * s, v.z * s⟩⟩

instance : HDiv Vec3 ℚ Vec3 := ⟨fun v s => ⟨v.x / s, v.y / s, v.z / s⟩⟩

instance : HAdd Point Vec3 Point := ⟨fun p v => ⟨p.x + v.x, p.y + v.y, p.z + v.z⟩⟩

instance : HSub Point Point Vec3 := ⟨fun a b => ⟨a.x - b.x, a.y - b.y, a.z - b.z⟩⟩

/-- Source `Vec3::dot`; the `w * w` term of the source is `0 * 0 = 0` and is
omitted. -/
def Vec3.dot (a b : Vec3) : ℚ :=
  a.x * b.x + a.y * b.y + a.z * b.z

/-- Source `Vec3::magnitude`. -/
def Vec3.magnitude (v : Vec3) : ℚ :=
  ratSqrt (v.x * v.x + v.y * v.y + v.z * v.z)

/-- Source `Vec3::normalize`. -/
def Vec3.normalize (v : Vec3) : Vec3 :=
  v / v.magnitude

/-- Source `Vec3::reflect`: `*self - other * 2.0 * self.dot(other)`, i.e.
the scaling `other * 2.0` further scaled by the dot product. -/
def Vec3.reflect (v other : Vec3) : Vec3 :=
  v - (other * (2 : ℚ)) * (v.dot other)

instance : Add Color := ⟨fun a b => ⟨a.r + b.r, a.g + b.g, a.b + b.b⟩⟩

instance : Sub Color := ⟨fun a b => ⟨a.r - b.r, a.g - b.g, a.b - b.b⟩⟩

instance : Mul Color := ⟨fun a b => ⟨a.r * b.r, a.g * b.g, a.b * b.b⟩⟩

instance : HMul Color ℚ Color := ⟨fun c s => ⟨c.r * s, c.g * s, c.b * s⟩⟩

instance : HDiv Color ℚ Color := ⟨fun c s => ⟨c.r / s, c.g / s, c.b / s⟩⟩

def Color.black : Color := ⟨0, 0, 0⟩

def Color.white : Color := ⟨1, 1, 1⟩

/-- Source `impl Sum for Color`: starts from black and adds in order. -/
def colorSum (l : List Color) : Color :=
  l.foldl (· + ·) Color.black

/-- Insertion step of `sortBy`. -/
def insertBy {α : Type} (le : α → α → Bool) (a : α) : List α → List α
  | [] => [a]
  | b :: l => if le a b then a :: b :: l else b :: insertBy le a l

/-- Insertion sort. It models the source's `sort_unstable_by`: both produce a
list sorted under the comparator, and no verified behavior depends on the
order of entries the comparator ties (structural recursion is used so that
concrete runs reduce inside the kernel). -/
def sortBy {α : Type} (le : α → α → Bool) : List α → List α
  | [] => []
  | a :: l => insertBy le a (sortBy le l)

theorem mem_insertBy {α : Type} (le : α → α → Bool) (a x : α) :
    ∀ l : List α, x ∈ insertBy le a l ↔ x = a ∨ x ∈ l := by
  intro l
  induction l with
  | nil => simp [insertBy]
  | cons b l ih =>
    simp only [insertBy]
    split
    · simp [List.mem_cons]
    · simp only [List.mem_cons, ih]
      tauto

theorem mem_sortBy {α : Type} (le : α → α → Bool) (x : α) :
    ∀ l : List α, x ∈ sortBy le l ↔ x ∈ l := by
  intro l
  induction l with
  | nil => simp [sortBy]
  | cons a l ih => simp [sortBy, mem_insertBy, ih, List.mem_cons]


/-- Source `src/math/matrix.rs`: `Matrix<4>`, a 4×4 matrix of `f64`. -/
def Matrix4 := Fin 4 → Fin 4 → ℚ

/-- Source `Matrix<3>`. -/
def Matrix3 := Fin 3 → Fin 3 → ℚ

/-- Source `Matrix<2>`. -/
def Matrix2 := Fin 2 → Fin 2 → ℚ

instance : DecidableEq Matrix4 :=
  inferInstanceAs (DecidableEq (Fin 4 → Fin 4 → ℚ))

instance : DecidableEq Matrix3 :=
  inferInstanceAs (DecidableEq (Fin 3 → Fin 3 → ℚ))

instance : DecidableEq Matrix2 :=
  inferInstanceAs (DecidableEq (Fin 2 → Fin 2 → ℚ))

/-- Build a `Matrix4` from four rows. -/
def mkMat4 (r0 r1 r2 r3 : Fin 4 → ℚ) : Matrix4 :=
  ![r0, r1, r2, r3]

/-- Source `Matrix::<4>::identity()`. -/
def Matrix4.identity : Matrix4 :=
  fun i j => if i = j then 1 else 0

/-- Source `Matrix::translation(x, y, z)`. -/
def Matrix4.translation (x y z : ℚ) : Matrix4 :=
  mkMat4 ![1, 0, 0, x] ![0, 1, 0, y] ![0, 0, 1, z] ![0, 0, 0, 1]

/-- Source `Matrix::scaling(x, y, z)`. -/
def Matrix4.scaling (x y z : ℚ) : Matrix4 :=
  mkMat4 ![x, 0, 0, 0] ![0, y, 0, 0] ![0, 0, z, 0] ![0, 0, 0, 1]

/-- Source `Matrix::transpose`. -/
def Matrix4.transpose (m : Matrix4) : Matrix4 :=
  fun i j => m j i

/-- Source `Matrix::<2>::determinant`. -/
def Matrix2.determinant (m : Matrix2) : ℚ :=
  m 0 0 * m 1 1 - m 0 1 * m 1 0

/-- Source `Matrix::<3>::submatrix`: delete one row and one column, keeping
the order of the remaining entries (the double loop with `continue`). -/
def Matrix3.submatrix (m : Matrix3) (row col : Fin 3) : Matrix2 :=
  fun i j => m (row.succAbove i) (col.succAbove j)

/-- Source `Matrix::<3>::minor`. -/
def Matrix3.minor (m : Matrix3) (row col : Fin 3) : ℚ :=
  (m.submatrix row col).determinant

/-- Source `Matrix::<3>::cofactor`. -/
def Matrix3.cofactor (m : Matrix3) (row col : Fin 3) : ℚ :=
  if ((row : ℕ) + (col : ℕ)) % 2 = 0 then m.minor row col else -(m.minor row col)

/-- Source `Matrix::<3>::determinant`: expansion along the first row. -/
def Matrix3.determinant (m : Matrix3) : ℚ :=
  m 0 0 * m.cofactor 0 0 + m 0 1 * m.cofactor 0 1 + m 0 2 * m.cofactor 0 2

/-- Source `Matrix::<4>::submatrix`. -/
def Matrix4.submatrix (m : Matrix4) (row col : Fin 4) : Matrix3 :=
  fun i j => m (row.succAbove i) (col.succAbove j)

/-- Source `Matrix::<4>::minor`. -/
def Matrix4.minor (m : Matrix4) (row col : Fin 4) : ℚ :=
  (m.submatrix row col).determinant

/-- Source `Matrix::<4>::cofactor`. -/
def Matrix4.cofactor (m : Matrix4) (row col : Fin 4) : ℚ :=
  if ((row : ℕ) + (col : ℕ)) % 2 = 0 then m.minor row col else -(m.minor row col)

/-- Source `Matrix::<4>::determinant`: expansion along the first row. -/
def Matrix4.determinant (m : Matrix4) : ℚ :=
  m 0 0 * m.cofactor 0 0 + m 0 1 * m.cofactor 0 1 +
    m 0 2 * m.cofactor 0 2 + m 0 3 * m.cofactor 0 3

/-- Source `Matrix::<4>::inverse`: `None` when the determinant is zero
(`is_invertible`), otherwise `inverse[col][row] = cofactor(row, col) / det`. -/
def Matrix4.inverse (m : Matrix4) : Option Matrix4 :=
  if m.determinant = 0 then none
  else some (fun col row => m.cofactor row col / m.determinant)

/-- Source `impl Mul<Point> for Matrix<4>`: the fourth homogeneous coordinate
of a point is `1`. -/
def Matrix4.mulPoint (m : Matrix4) (p : Point) : Point :=
  ⟨m 0 0 * p.x + m 0 1 * p.y + m 0 2 * p.z + m 0 3 * 1,
   m 1 0 * p.x + m 1 1 * p.y + m 1 2 * p.z + m 1 3 * 1,
   m 2 0 * p.x + m 2 1 * p.y + m 2 2 * p.z + m 2 3 * 1⟩

/-- Source `impl Mul<Vec3> for Matrix<4>`: the fourth homogeneous coordinate
of a vector is `0`, so the translation column contributes nothing. -/
def Matrix4.mulVec (m : Matrix4) (v : Vec3) : Vec3 :=
  ⟨m 0 0 * v.x + m 0 1 * v.y + m 0 2 * v.z,
   m 1 0 * v.x + m 1 1 * v.y + m 1 2 * v.z,
   m 2 0 * v.x + m 2 1 * v.y + m 2 2 * v.z⟩

/-- Source `src/core.rs`: `pub const EPS: f64 = 0.00001`. -/
def EPS : ℚ := 1 / 100000

deriving instance DecidableEq for Except

/-- The values of an `f64` relevant to `IntersectionList::hit`: finite values
(`fin q`, where `fin 0` is the positive zero), the negative zero, the two
infinities, and NaN. -/
inductive F where
  | fin (q : ℚ)
  | negZero
  | inf
  | negInf
  | nan
deriving DecidableEq, Repr

/-- Model of `f64::is_finite`. -/
def F.isFinite : F → Bool
  | .fin _ => true
  | .negZero => true
  | _ => false

/-- Model of `f64::is_sign_positive`: true exactly when the sign bit is clear.
In particular it is true on the positive zero `fin 0`, on `inf`, and on the
(positive-sign) NaN, and false on `negZero` and negative finite values. -/
def F.isSignPositive : F → Bool
  | .fin q => decide (0 ≤ q)
  | .negZero => false
  | .inf => true
  | .negInf => false
  | .nan => true

/-- Numeric rank used to order non-NaN values: `negInf` below all finite
values (with `negZero` equal to `fin 0`) below `inf`. -/
def F.rank : F → Nat
  | .negInf => 0
  | .negZero => 1
  | .fin _ => 1
  | .inf => 2
  | .nan => 3

/-- Finite payload used to order values of equal rank. -/
def F.val : F → ℚ
  | .fin q => q
  | _ => 0

/-- Total Boolean order agreeing with the IEEE order on non-NaN values
(the only values the source ever compares without panicking). -/
def F.le (a b : F) : Bool :=
  decide (a.rank < b.rank) || (decide (a.rank = b.rank) && decide (a.val ≤ b.val))

/-- An intersection record as consumed by `IntersectionList::hit`, with the
`t` value kept at `f64` fidelity and the hit object abstracted to an
identifier (hit selection never inspects the object). -/
structure FIntersection where
  t : F
  object : ℕ
deriving DecidableEq, Repr

/-- Source `IntersectionList::hit` at full `f64` fidelity. The method first
sorts `data` with `partial_cmp(..).unwrap()`: when the list has at least two
entries and one `t` is NaN, the comparator receives an incomparable pair and
the `unwrap` panics (`Except.error`). Otherwise it filters for
`t.is_finite() && t.is_sign_positive()` and `min_by` returns the first
minimum in iteration order, which on the ascending-sorted list is the head of
the filtered list. -/
def fhit (xs : List FIntersection) : Except Unit (Option FIntersection) :=
  if 2 ≤ xs.length && xs.any (fun x => decide (x.t = F.nan)) then .error ()
  else
    .ok (((sortBy (fun a b => F.le a.t b.t) xs).filter
      (fun x => x.t.isFinite && x.t.isSignPositive)).head?)

/-- Source `src/core/pattern.rs` and its submodules: the closed set of
procedural patterns, each owning a transform. -/
inductive Pattern where
  | stripes (colors : List Color) (transform : Matrix4)
  | gradient (color1 color2 : Color) (transform : Matrix4)
  | rings (colors : List Color) (transform : Matrix4)
  | checkers (color1 color2 : Color) (transform : Matrix4)
  | blended (pattern1 pattern2 : Pattern) (transform : Matrix4)
deriving DecidableEq

/-- Source `Pattern::transform`. -/
def Pattern.transform : Pattern → Matrix4
  | .stripes _ t => t
  | .gradient _ _ t => t
  | .rings _ t => t
  | .checkers _ _ t => t
  | .blended _ _ t => t

/-- Source `src/core/material.rs`: Phong parameters. -/
structure Material where
  color : Color
  pattern : Option Pattern
  ambient : ℚ
  diffuse : ℚ
  specular : ℚ
  shininess : ℚ
  reflective : ℚ
  transparency : ℚ
  refractive_index : ℚ
deriving DecidableEq

/-- Source `impl Default for Material`. -/
def Material.default : Material :=
  ⟨Color.white, none, 1/10, 9/10, 9/10, 200, 0, 0, 1⟩

/-- Source `src/shape/sphere.rs`: a sphere is its transform and material. -/
structure Sphere where
  transform : Matrix4
  material : Material
deriving DecidableEq

/-- Source `impl Default for Sphere`. -/
def Sphere.default : Sphere :=
  ⟨Matrix4.identity, Material.default⟩

/-- Source `src/shape/plane.rs`. -/
structure Plane where
  transform : Matrix4
  material : Material
deriving DecidableEq

/-- Source `impl Default for Plane`. -/
def Plane.default : Plane :=
  ⟨Matrix4.identity, Material.default⟩

/-- Source `src/shape.rs`: the closed set of primitives. -/
inductive Shape where
  | sphere (s : Sphere)
  | plane (p : Plane)
deriving DecidableEq

/-- Source `Shape::transform`. -/
def Shape.transform : Shape → Matrix4
  | .sphere s => s.transform
  | .plane p => p.transform

/-- Source `Shape::material`. -/
def Shape.material : Shape → Material
  | .sphere s => s.material
  | .plane p => p.material

/-- Source `src/core/light.rs`: the single `PointLight` variant. -/
inductive Light where
  | pointLight (position : Point) (intensity : Color)
deriving DecidableEq

/-- Source `Light::position`. -/
def Light.position : Light → Point
  | .pointLight p _ => p

/-- Source `Light::intensity`. -/
def Light.intensity : Light → Color
  | .pointLight _ i => i

/-- Source `src/core/ray.rs`. -/
structure Ray where
  origin : Point
  direction : Vec3
deriving DecidableEq

/-- Source `Ray::position`. -/
def Ray.position (r : Ray) (t : ℚ) : Point :=
  r.origin + r.direction * t

/-- Source `Ray::transform`. -/
def Ray.transform (r : Ray) (m : Matrix4) : Ray :=
  ⟨m.mulPoint r.origin, m.mulVec r.direction⟩

/-- Source `src/core.rs`: `struct Intersection`, restricted to the finite
rational `t` values produced by the geometric pipeline in the verified
scenarios. -/
structure Intersection where
  t : ℚ
  object : Shape
deriving DecidableEq

/-- Source `IntersectionList::new`: sort ascending by `t`. -/
def IntersectionList.new (list : List Intersection) : List Intersection :=
  sortBy (fun a b => decide (a.t ≤ b.t)) list

/-- Source `IntersectionList::hit` restricted to finite rational `t` values,
on which it cannot panic: `is_finite` is always true and `is_sign_positive q`
is `0 ≤ q` (the rationals have no negative zero), and `min_by` returns the
first minimum of the ascending-sorted filtered list, i.e. its head. The
`f64` corner cases of the same method are modelled separately by `fhit`. -/
def IntersectionList.hit (xs : List Intersection) : Option Intersection :=
  ((sortBy (fun a b => decide (a.t ≤ b.t)) xs).filter
    (fun x => decide (0 ≤ x.t))).head?

/-- Source `Sphere::normal_at_world_pt`: `None` when the transform has no
inverse; otherwise inverse-transform the point, take the local normal
(point minus origin), push it through the transposed inverse and normalize. -/
def Sphere.normal_at_world_pt (s : Sphere) (world_pt : Point) : Option Vec3 :=
  match s.transform.inverse with
  | none => none
  | some inv =>
    let object_pt := inv.mulPoint world_pt
    let object_normal : Vec3 := object_pt - (⟨0, 0, 0⟩ : Point)
    let world_normal := inv.transpose.mulVec object_normal
    some world_normal.normalize

/-- Source `Plane::normal_at_world_pt`: constant local normal `(0, 1, 0)`
pushed through the transposed inverse, `None` when no inverse exists. -/
def Plane.normal_at_world_pt (p : Plane) (_world_pt : Point) : Option Vec3 :=
  match p.transform.inverse with
  | none => none
  | some inv =>
    let object_normal : Vec3 := ⟨0, 1, 0⟩
    let world_normal := inv.transpose.mulVec object_normal
    some world_normal.normalize

/-- Source `Sphere::intersect`, the quadratic coefficients for the
local-space ray: `a = d . d`, `b = 2 d . (o - origin)`,
`c = (o - origin) . (o - origin) - 1`. -/
def sphereQuadratic (tr : Ray) : ℚ × ℚ × ℚ :=
  let sphere_to_ray : Vec3 := tr.origin - (⟨0, 0, 0⟩ : Point)
  (tr.direction.dot tr.direction,
   2 * tr.direction.dot sphere_to_ray,
   sphere_to_ray.dot sphere_to_ray - 1)

/-- Source `Sphere::intersect`: transform the ray into local space (`None` on
a singular transform), solve the quadratic of the unit sphere, return `None`
when the discriminant is negative and the two roots in order otherwise. -/
def Sphere.intersect (s : Sphere) (r : Ray) : Option (List Intersection) :=
  match s.transform.inverse with
  | none => none
  | some inv =>
    let q := sphereQuadratic (r.transform inv)
    let discrim := q.2.1 * q.2.1 - 4 * q.1 * q.2.2
    if discrim < 0 then none
    else
      let t1 := (-q.2.1 - ratSqrt discrim) / (2 * q.1)
      let t2 := (-q.2.1 + ratSqrt discrim) / (2 * q.1)
      some [⟨t1, Shape.sphere s⟩, ⟨t2, Shape.sphere s⟩]

/-- Source `Plane::intersect`: transform the ray into local space (`None` on
a singular transform); `None` when the local direction's y-component is
within `EPS` of zero, otherwise one intersection at `-origin.y/direction.y`. -/
def Plane.intersect (p : Plane) (r : Ray) : Option (List Intersection) :=
  match p.transform.inverse with
  | none => none
  | some inv =>
    let tr := r.transform inv
    if |tr.direction.y| < EPS then none
    else
      let t := -tr.origin.y / tr.direction.y
      some (IntersectionList.new [⟨t, Shape.plane p⟩])

/-- Source `impl Intersectable for Shape`: dispatch on the variant. -/
def Shape.intersect : Shape → Ray → Option (List Intersection)
  | .sphere s, r => s.intersect r
  | .plane p, r => p.intersect r

/-- Source `impl Intersectable for Shape`: dispatch on the variant. -/
def Shape.normal_at : Shape → Point → Option Vec3
  | .sphere s, p => s.normal_at_world_pt p
  | .plane pl, p => pl.normal_at_world_pt p

/-- The refractive index of the shape on top of the container stack, or 1.0
(vacuum) when the stack is empty; the top of the stack is the last pushed
element (`containers.last()` after `containers.push(..)`). -/
def containersTopIndex (containers : List Shape) : ℚ :=
  match containers.getLast? with
  | some o => o.material.refractive_index
  | none => 1

/-- Source `set_refractive_indices`, loop body. The Rust loop keeps `n1`/`n2`
as `Option<f64>` and breaks right after the entry equal to `ix`; since they
are only assigned at that entry, the loop is the recursion below: at the
entry equal to `ix`, `n1` is the refractive index of the stack top before the
toggle and `n2` the one after, each defaulting to 1.0; at any other entry
only the toggle happens. The toggle is the source's
`containers.iter().position(|o| *o == i.object)` followed by
`containers.remove(idx)` on a hit and `containers.push(..)` on a miss. -/
def riLoop (ix : Intersection) : List Intersection → List Shape → ℚ × ℚ
  | [], _ => (1, 1)
  | i :: rest, containers =>
    let containers' :=
      match containers.findIdx? (fun o => decide (o = i.object)) with
      | some idx => containers.eraseIdx idx
      | none => containers ++ [i.object]
    if i = ix then (containersTopIndex containers, containersTopIndex containers')
    else riLoop ix rest containers'

/-- Source `set_refractive_indices`. -/
def set_refractive_indices (ix : Intersection) (xs : List Intersection) : ℚ × ℚ :=
  riLoop ix xs []

/-- Source `PrecomputedData`. -/
structure PrecomputedData where
  t : ℚ
  object : Shape
  point : Point
  eyev : Vec3
  normalv : Vec3
  inside : Bool
  over_point : Point
  reflectv : Vec3
  n1 : ℚ
  n2 : ℚ
deriving DecidableEq

/-- Source `PrecomputedData::new`: the `expect` on `normal_at` is the panic
path taken when the hit object's transform is singular (`Except.error`);
otherwise the normal is flipped when the eye is inside, the reflection vector
and the bias-corrected `over_point` are derived, and the refractive indices
come from the stack walk. -/
def PrecomputedData.new (ix : Intersection) (ray : Ray) (xs : List Intersection) :
    Except Unit PrecomputedData :=
  match ix.object.normal_at (ray.position ix.t) with
  | none => .error ()
  | some n =>
    let world_point := ray.position ix.t
    let eyev := -ray.direction
    let inside := decide (n.dot eyev < 0)
    let normalv := if inside then -n else n
    let reflectv := ray.direction.reflect normalv
    let over_point := world_point + normalv * EPS
    let ri := set_refractive_indices ix xs
    .ok ⟨ix.t, ix.object, world_point, eyev, normalv, inside, over_point, reflectv,
      ri.1, ri.2⟩

/-- Source `StripePattern::color_at`:
`colors[pt.x().floor().abs() as usize % colors.len()]` — floor first, absolute
value second. Out-of-range indexing (an empty color list) is modelled by a
black default; all claims involve non-empty color lists, where the source
indexing cannot panic. -/
def stripesColorAt (colors : List Color) (pt : Point) : Color :=
  colors.getD ((Rat.floor pt.x).natAbs % colors.length) Color.black

/-- Source `Rings::color_at`. -/
def ringsColorAt (colors : List Color) (pt : Point) : Color :=
  colors.getD
    ((Rat.floor (ratSqrt (pt.x * pt.x + pt.z * pt.z))).natAbs % colors.length)
    Color.black

/-- Source `Gradient::color_at`. -/
def gradientColorAt (color1 color2 : Color) (pt : Point) : Color :=
  color1 + (color2 - color1) * pt.x

/-- Source `Checkers::color_at`. -/
def checkersColorAt (color1 color2 : Color) (pt : Point) : Color :=
  if ((Rat.floor pt.x).natAbs + (Rat.floor pt.y).natAbs + (Rat.floor pt.z).natAbs) % 2 = 0
  then color1 else color2

/-- Source `Pattern::color_at`, with `Blended::color_at` inlined for the
`blended` variant: the latter calls `.inverse().unwrap()` on both child
transforms, a panic (`Except.error`) when either is singular. -/
def Pattern.color_at : Pattern → Point → Except Unit Color
  | .stripes colors _, pt => .ok (stripesColorAt colors pt)
  | .gradient c1 c2 _, pt => .ok (gradientColorAt c1 c2 pt)
  | .rings colors _, pt => .ok (ringsColorAt colors pt)
  | .checkers c1 c2 _, pt => .ok (checkersColorAt c1 c2 pt)
  | .blended p1 p2 _, pt =>
    match p1.transform.inverse, p2.transform.inverse with
    | some inv1, some inv2 => do
      let c1 ← p1.color_at (inv1.mulPoint pt)
      let c2 ← p2.color_at (inv2.mulPoint pt)
      .ok ((c1 + c2) / (2 : ℚ))
    | _, _ => .error ()

/-- Source `Pattern::color_at_object`: `None` when either the object's or the
pattern's transform is singular (the two `?` operators); otherwise the world
point is mapped through both inverses and handed to `color_at`. The
`Except` layer carries a possible panic inside a blended child. -/
def Pattern.color_at_object (pat : Pattern) (object : Shape) (world_pt : Point) :
    Except Unit (Option Color) :=
  match object.transform.inverse with
  | none => .ok none
  | some oinv =>
    match pat.transform.inverse with
    | none => .ok none
    | some pinv => do
      let c ← pat.color_at (pinv.mulPoint (oinv.mulPoint world_pt))
      .ok (some c)

/-- Model of Rust `as i32` truncation (toward zero) of an `f64`, applied by
the source to the shininess exponent. -/
def ratTruncToInt (q : ℚ) : ℤ :=
  Int.tdiv q.num (q.den : ℤ)

/-- Source `Material::lighting`, lines 36-39: the base-color resolution.
The pattern branch is `pat.color_at_object(object, point).unwrap()`: the
`unwrap` panics (`Except.error`) when `color_at_object` returns `None`,
i.e. when the object's or the pattern's transform is singular. -/
def Material.base_color (m : Material) (object : Shape) (point : Point) :
    Except Unit Color :=
  match m.pattern with
  | none => Except.ok m.color
  | some pat =>
    match pat.color_at_object object point with
    | .error e => Except.error e
    | .ok none => Except.error ()
    | .ok (some c) => Except.ok c

/-- Source `Material::lighting`. After the base color is resolved the rest
follows the source line by line: effective color, light vector, ambient, the
`in_shadow` early return, and the diffuse/specular branching on
`light_dot_normal` and `reflect_dot_eye`. -/
def Material.lighting (m : Material) (object : Shape) (light : Light)
    (point : Point) (eyev normalv : Vec3) (in_shadow : Bool) :
    Except Unit Color := do
  let color ← m.base_color object point
  let effective_color := color * light.intensity
  let lightv := (light.position - point).normalize
  let ambient := effective_color * m.ambient
  let light_dot_normal := lightv.dot normalv
  if in_shadow then
    return ambient
  else
    let sd :=
      if light_dot_normal < 0 then (Color.black, Color.black)
      else
        let reflectv := -(lightv.reflect normalv)
        let reflect_dot_eye := reflectv.dot eyev
        if reflect_dot_eye ≤ 0 then
          (Color.black, effective_color * (m.diffuse * light_dot_normal))
        else
          let factor := reflect_dot_eye ^ ratTruncToInt m.shininess
          (light.intensity * (m.specular * factor),
           effective_color * (m.diffuse * light_dot_normal))
    return ambient + sd.2 + sd.1

/-- Source `src/core/world.rs`: `struct World`. -/
structure World where
  objects : List Shape
  lights : List Light

/-- Source `World::intersect_world`: flat-map every object's intersections
(a `None` from a singular transform or a miss contributes nothing) and sort
the collected list; the result is always `Some`. -/
def World.intersect_world (w : World) (ray : Ray) : Option (List Intersection) :=
  some (IntersectionList.new (w.objects.flatMap
    (fun o => (o.intersect ray).getD [])))

/-- Source `World::is_shadowed`: cast a ray from the point toward the light;
shadowed exactly when a hit exists with `t` strictly below the distance to
the light. -/
def World.is_shadowed (w : World) (p : Point) (light : Light) : Bool :=
  let v : Vec3 := light.position - p
  let distance := v.magnitude
  let direction := v.normalize
  let r : Ray := ⟨p, direction⟩
  match w.intersect_world r with
  | some ixl =>
    match IntersectionList.hit ixl with
    | some h => decide (h.t < distance)
    | none => false
  | none => false

mutual

/-- Source `World::color_at`: intersect the world, return black when there is
no hit, otherwise precompute the hit data (whose `expect` may panic) and
shade. -/
def World.color_at (w : World) (r : Ray) (remaining : ℕ) : Except Unit Color :=
  match w.intersect_world r with
  | none => .ok Color.black
  | some ixl =>
    match IntersectionList.hit ixl with
    | none => .ok Color.black
    | some h => do
      let comps ← PrecomputedData.new h r ixl
      w.shade_hit comps remaining
termination_by (remaining, 2)

/-- Source `World::shade_hit`: the surface color is the sum over all lights
of `lighting` with that light's own shadow test, then the reflected color is
added. -/
def World.shade_hit (w : World) (comps : PrecomputedData) (remaining : ℕ) :
    Except Unit Color := do
  let parts ← w.lights.mapM (fun l =>
    comps.object.material.lighting comps.object l comps.over_point comps.eyev
      comps.normalv (w.is_shadowed comps.over_point l))
  let surface := colorSum parts
  let reflected ← w.reflected_color comps remaining
  return surface + reflected
termination_by (remaining, 1)

/-- Source `World::reflected_color`: black when the budget is exhausted or
the material is not reflective; otherwise recurse on `color_at` with budget
`remaining - 1` on the ray from the bias-corrected point along the
reflection vector, scaling the result by the reflective coefficient. -/
def World.reflected_color (w : World) (comps : PrecomputedData) (remaining : ℕ) :
    Except Unit Color :=
  match remaining with
  | 0 => .ok Color.black
  | n + 1 =>
    if comps.object.material.reflective = 0 then .ok Color.black
    else do
      let col ← w.color_at ⟨comps.over_point, comps.reflectv⟩ n
      return col * comps.object.material.reflective
termination_by (remaining, 0)

end

/-- Source `struct Stochastic`. -/
structure Stochastic where
  level : ℕ
deriving DecidableEq

/-- Source `impl Default for Stochastic`: 5 samples. -/
def Stochastic.default : Stochastic :=
  ⟨5⟩

/-- Source `struct Multisampling`. -/
structure Multisampling where
  level : ℕ
  error_tolerance : ℚ
deriving DecidableEq

/-- Source `impl Default for Multisampling`. -/
def Multisampling.default : Multisampling :=
  ⟨5, 1⟩

/-- Source `enum AAMethod`. -/
inductive AAMethod where
  | stochastic (s : Stochastic)
  | multisampling (m : Multisampling)
deriving DecidableEq

/-- Source `struct AntiAliasing`. -/
structure AntiAliasing where
  method : AAMethod
  level : ℕ
  error_tolerance : ℚ
deriving DecidableEq

/-- Source `impl Default for AntiAliasing`: the stochastic default method,
tolerance 1.0, outer level 0. -/
def AntiAliasing.default : AntiAliasing :=
  ⟨AAMethod.stochastic Stochastic.default, 0, 1⟩

/-- One draw of the sampling loops. Each iteration of the source loops draws
two fresh uniform offsets, builds a ray with `Camera::ray_for_pixel` (which
is `None` when the camera transform is singular) and on success evaluates
`World::color_at`. The whole draw is abstracted as an oracle from the draw
counter to the optional resulting color; `none` models the skipped-ray case. -/
def SampleOracle : Type :=
  ℕ → Option Color

/-- Source `Stochastic::anti_alias` loop: `for _ in 0..self.level` draws one
sample per iteration and adds the resulting color when the ray exists. The
second component counts the draws made, i.e. the loop iterations. -/
def stochasticLoop (samples : SampleOracle) : ℕ → ℕ → Color → Color × ℕ
  | 0, k, color => (color, k)
  | m + 1, k, color =>
    let color :=
      match samples k with
      | some c => color + c
      | none => color
    stochasticLoop samples m (k + 1) color

/-- Source `Stochastic::anti_alias`: run the fixed-count loop from black and
divide by `level`. -/
def Stochastic.anti_alias (s : Stochastic) (samples : SampleOracle) : Color :=
  (stochasticLoop samples s.level 0 Color.black).1 / (s.level : ℚ)

/-- The number of draws `Stochastic::anti_alias` makes. -/
def Stochastic.sampleCount (s : Stochastic) (samples : SampleOracle) : ℕ :=
  (stochasticLoop samples s.level 0 Color.black).2

/-- Accumulator of `Multisampling::anti_alias`: the sample counter `n` (an
`f64` in the source, exact on these small integers), the per-channel sum of
squares and the sum. -/
structure MsAcc where
  n : ℚ
  color_squared_sum : Color
  color_sum : Color
deriving DecidableEq

/-- Source `Multisampling::color_mean_variance`: per-channel
`sum_of_squares/n - mean^2`, summed across channels, divided again by `n`. -/
def color_mean_variance (n : ℚ) (sum_of_squares sum : Color) : ℚ :=
  let color_mean := sum / n
  let color_var := sum_of_squares / n - color_mean * color_mean
  (color_var.r + color_var.g + color_var.b) / n

/-- Source `Multisampling::anti_alias`, first loop
(`while n < self.level as f64`): one draw per iteration; the sums are updated
only when the ray exists but `n` advances unconditionally, so the loop runs
exactly `level` iterations. The second component is the draw counter. -/
def msInitLoop (samples : SampleOracle) : ℕ → ℕ → MsAcc → MsAcc × ℕ
  | 0, k, st => (st, k)
  | m + 1, k, st =>
    let st :=
      match samples k with
      | some c => ⟨st.n + 1, st.color_squared_sum + c * c, st.color_sum + c⟩
      | none => ⟨st.n + 1, st.color_squared_sum, st.color_sum⟩
    msInitLoop samples m (k + 1) st

/-- Source `Multisampling::anti_alias`, adaptive loop: while the variance
estimate exceeds `tolerance^2`, draw one more sample (updating the sums and
`n` only when the ray exists). The source loop has no iteration bound, so the
model takes a fuel parameter; `none` means the fuel was exhausted with the
loop still running. On exit it returns the final accumulator and the draw
counter. -/
def msAdaptiveLoop (tolerance : ℚ) (samples : SampleOracle) :
    ℕ → ℕ → MsAcc → Option (MsAcc × ℕ)
  | 0, _, _ => none
  | fuel + 1, k, st =>
    if color_mean_variance st.n st.color_squared_sum st.color_sum >
        tolerance * tolerance then
      let st' :=
        match samples k with
        | some c => (⟨st.n + 1, st.color_squared_sum + c * c, st.color_sum + c⟩ : MsAcc)
        | none => st
      msAdaptiveLoop tolerance samples fuel (k + 1) st'
    else some (st, k)

/-- Source `Multisampling::anti_alias`: the initial phase of exactly `level`
draws followed by the adaptive phase; returns the averaged color together
with the total number of draws made, or `none` when the fuel ran out. -/
def Multisampling.anti_alias (m : Multisampling) (samples : SampleOracle)
    (fuel : ℕ) : Option (Color × ℕ) :=
  match msAdaptiveLoop m.error_tolerance samples fuel
      (msInitLoop samples m.level 0 ⟨0, Color.black, Color.black⟩).2
      (msInitLoop samples m.level 0 ⟨0, Color.black, Color.black⟩).1 with
  | none => none
  | some (st, k) => some (st.color_sum / st.n, k)

/-- Source `struct Camera`; the derived projection fields are carried as
opaque rational data (their trigonometric derivation in `Camera::new` plays
no role in the claims under scrutiny). -/
structure Camera where
  hsize : ℕ
  vsize : ℕ
  fov : ℚ
  transform : Matrix4
  pixel_size : ℚ
  half_width : ℚ
  half_height : ℚ
  aa : AntiAliasing
deriving DecidableEq

/-- Source `Camera::with_antialiasing`: `self.aa.level = level` — only the
outer level field of the anti-aliasing configuration is assigned. -/
def Camera.with_antialiasing (c : Camera) (level : ℕ) : Camera :=
  { c with aa := { c.aa with level := level } }

/-- Source `Camera::with_aa_method`: `self.aa.method = method`. -/
def Camera.with_aa_method (c : Camera) (method : AAMethod) : Camera :=
  { c with aa := { c.aa with method := method } }

/-- Claim C1: evidence on `IntersectionList::hit` at `f64` fidelity. The
specification's own hit-selection tests hold (all-negative lists give no hit,
mixed lists give the least positive `t`, `+inf` entries are filtered), but
the claim fails on two inputs: a list holding a single `t = +0.0` entry is
returned as the hit (the filter `is_sign_positive` accepts the positive
zero, while the claim and the method's documentation exclude `t = 0`), and a
list of two entries one of which has `t = NaN` makes the pre-filter sort's
`partial_cmp(..).unwrap()` panic, while the claim says NaN entries are merely
excluded and `hit` never panics. -/
theorem claim_C1 :
    fhit [⟨F.fin (-2), 0⟩, ⟨F.fin (-1), 1⟩] = .ok none ∧
    fhit [⟨F.fin (-1), 0⟩, ⟨F.fin 1, 1⟩] = .ok (some ⟨F.fin 1, 1⟩) ∧
    fhit [⟨F.fin 1, 0⟩, ⟨F.fin 2, 1⟩] = .ok (some ⟨F.fin 1, 0⟩) ∧
    fhit [⟨F.inf, 0⟩, ⟨F.fin 3, 1⟩] = .ok (some ⟨F.fin 3, 1⟩) ∧
    fhit [⟨F.negZero, 0⟩] = .ok none ∧
    fhit [⟨F.fin 0, 0⟩] = .ok (some ⟨F.fin 0, 0⟩) ∧
    fhit [⟨F.nan, 0⟩, ⟨F.fin 1, 1⟩] = .error () := by
  with_unfolding_all decide

/-- Claim C5, counterexample: the claim computes the stripe index as
`floor(abs x)`; at `x = -1/10` that gives index `0` and the first color
(white), but the source computes `abs(floor x)` and yields the second color
(black) — matching the source's own regression test at `-0.1`. -/
theorem claim_C5_counterexample :
    stripesColorAt [Color.white, Color.black] ⟨-1/10, 0, 0⟩ = Color.black ∧
    (Rat.floor |(-1/10 : ℚ)|).natAbs % 2 = 0 ∧
    [Color.white, Color.black].getD 0 Color.black = Color.white ∧
    Color.black ≠ Color.white := by
  with_unfolding_all decide

/-- Claim C5, amended: for a non-empty color list the stripe color at `p` is
`colors[abs(floor(p.x)) mod colors.len()]` — floor first, absolute value
second — a safe in-bounds access; for `0 ≤ p.x` this coincides with the
originally claimed `floor(abs(p.x))` indexing. -/
theorem claim_C5 (colors : List Color) (pt : Point) (h : colors ≠ []) :
    stripesColorAt colors pt =
      colors.get ⟨(Rat.floor pt.x).natAbs % colors.length,
        Nat.mod_lt _ (List.length_pos.mpr h)⟩ ∧
    (0 ≤ pt.x →
      stripesColorAt colors pt =
        colors.get ⟨(Rat.floor |pt.x|).natAbs % colors.length,
          Nat.mod_lt _ (List.length_pos.mpr h)⟩) := by
  constructor
  · exact List.getD_eq_get colors Color.black _
  · intro hx
    rw [abs_of_nonneg hx]
    exact List.getD_eq_get colors Color.black _

/-- Claim C5, witness for the amended theorem at the stripe pattern of the
source's test, evaluated at `x = -11/10`. -/
theorem claim_C5_witness :
    stripesColorAt [Color.white, Color.black] ⟨-11/10, 0, 0⟩ =
      [Color.white, Color.black].get
        ⟨(Rat.floor ((-11 : ℚ)/10)).natAbs % 2, Nat.mod_lt _ (by simp)⟩ :=
  (claim_C5 [Color.white, Color.black] ⟨-11/10, 0, 0⟩ (by simp)).1

/-- Removal of the first occurrence of a shape from the container stack; this
is what the source's `containers.iter().position(|o| *o == x)` followed by
`containers.remove(idx)` performs. -/
def removeFirstOccurrence : List Shape → Shape → List Shape
  | [], _ => []
  | c :: rest, o => if c = o then rest else c :: removeFirstOccurrence rest o

/-- The stack walk exactly as the specification words it: on each entry,
read `n1` from the stack top (1.0 when empty) before updating the stack;
toggle — if the entry's primitive is already on the stack remove it,
otherwise push it; and when the entry equals `ix`, record `n2` from the new
top (1.0 when empty) and stop. -/
def refractionSpecWalk (ix : Intersection) : List Intersection → List Shape → ℚ × ℚ
  | [], _ => (1, 1)
  | i :: rest, stack =>
    let n1 := containersTopIndex stack
    let stack' :=
      if i.object ∈ stack then removeFirstOccurrence stack i.object
      else stack ++ [i.object]
    if i = ix then (n1, containersTopIndex stack')
    else refractionSpecWalk ix rest stack'

theorem toggle_eq (o : Shape) :
    ∀ cs : List Shape,
      (match cs.findIdx? (fun x => decide (x = o)) with
       | some idx => cs.eraseIdx idx
       | none => cs ++ [o]) =
      (if o ∈ cs then removeFirstOccurrence cs o else cs ++ [o]) := by
  intro cs
  induction cs with
  | nil => simp [List.findIdx?_nil, removeFirstOccurrence]
  | cons c rest ih =>
    by_cases hco : c = o
    · subst hco
      simp [List.findIdx?_cons, removeFirstOccurrence]
    · rw [List.findIdx?_cons]
      have hpo : (decide (c = o)) = false := by simp [hco]
      rw [hpo]
      simp only [Bool.false_eq_true, if_false, List.findIdx?_succ]
      have hmem : (o ∈ c :: rest) = (o ∈ rest) := by
        simp [List.mem_cons, fun h : o = c => hco h.symm, Ne.symm hco]
      rcases hfind : rest.findIdx? (fun x => decide (x = o)) with _ | idx
      · have hnm : o ∉ rest := by
          intro hmem2
          have := List.findIdx?_eq_none_iff.mp hfind o hmem2
          simp at this
        rw [hfind] at ih
        simp only [hnm, if_false] at ih
        simp [hmem, hnm, ih]
      · have hm : o ∈ rest := by
          have h1 : idx < rest.length := (List.findIdx?_eq_some_iff_findIdx_eq.mp hfind).1
          have h2 := List.findIdx?_eq_some_iff_getElem.mp hfind
          obtain ⟨hlt, heq, -⟩ := h2
          have : rest[idx] = o := by simpa using heq
          exact this ▸ List.getElem_mem hlt
        rw [hfind] at ih
        simp only [hm, if_true] at ih
        simp only [Option.map_some']
        rw [List.eraseIdx_cons_succ]
        simp only [hmem, hm, if_true, removeFirstOccurrence, hco, if_false]
        rw [ih]

/-- The source loop and the specification walk agree on every input. -/
theorem riLoop_eq_specWalk (ix : Intersection) :
    ∀ (xs : List Intersection) (containers : List Shape),
      riLoop ix xs containers = refractionSpecWalk ix xs containers := by
  intro xs
  induction xs with
  | nil => intro cs; rfl
  | cons i rest ih =>
    intro cs
    simp only [riLoop, refractionSpecWalk]
    rw [toggle_eq i.object cs]
    by_cases hix : i = ix
    · simp [hix]
    · simp only [hix, if_false]
      exact ih _

/-- The glass material of the source test helper `glass_sphere()`. -/
def glassMaterial : Material :=
  { Material.default with transparency := 1, refractive_index := 3/2 }

/-- Sphere `a` of the refraction test: glass, scaled by 2. -/
def sphereA : Shape := Shape.sphere ⟨Matrix4.scaling 2 2 2, glassMaterial⟩

/-- Sphere `b` of the refraction test: refractive index 2, shifted by -0.25
along z. -/
def sphereB : Shape :=
  Shape.sphere ⟨Matrix4.translation 0 0 (-1/4),
    { Material.default with refractive_index := 2 }⟩

/-- Sphere `c` of the refraction test: refractive index 2.5, shifted by 0.25
along z. -/
def sphereC : Shape :=
  Shape.sphere ⟨Matrix4.translation 0 0 (1/4),
    { Material.default with refractive_index := 5/2 }⟩

/-- The six ordered intersections of one ray with the three overlapping glass
spheres. -/
def glassXs : List Intersection :=
  [⟨2, sphereA⟩, ⟨11/4, sphereB⟩, ⟨13/4, sphereC⟩,
   ⟨19/4, sphereB⟩, ⟨21/4, sphereC⟩, ⟨6, sphereA⟩]

/-- Claim C4: `set_refractive_indices` is the stack walk the specification
describes (`riLoop_eq_specWalk` above, applied to the empty initial stack),
and on the three overlapping glass spheres with indices 1.5, 2.0, 2.5 the six
ordered intersections — a list that is indeed already sorted — produce
n1 = (1, 1.5, 2, 2.5, 2.5, 1.5) and n2 = (1.5, 2, 2.5, 2.5, 1.5, 1) pairwise. -/
theorem claim_C4 :
    (∀ (ix : Intersection) (xs : List Intersection),
      set_refractive_indices ix xs = refractionSpecWalk ix xs []) ∧
    IntersectionList.new glassXs = glassXs ∧
    glassXs.map (fun i => set_refractive_indices i glassXs) =
      [(1, 3/2), (3/2, 2), (2, 5/2), (5/2, 5/2), (5/2, 3/2), (3/2, 1)] := by
  refine ⟨fun ix xs => riLoop_eq_specWalk ix xs [], ?_, ?_⟩
  · with_unfolding_all decide
  · with_unfolding_all decide

set_option maxRecDepth 8000 in
/-- Claim C6: with `in_shadow = true`, `lighting` returns exactly the ambient
term (resolved base color times light intensity times the ambient
coefficient) whatever the angles, whenever the base color resolves at all —
in particular for every pattern-free material; and the two exact-value
scenarios of the specification hold for the default material: (1.9, 1.9, 1.9)
out of shadow and (0.1, 0.1, 0.1) in shadow. -/
theorem claim_C6 :
    (∀ (m : Material) (object : Shape) (light : Light) (point : Point)
       (eyev normalv : Vec3) (c : Color),
       m.base_color object point = Except.ok c →
       m.lighting object light point eyev normalv true =
         Except.ok ((c * light.intensity) * m.ambient)) ∧
    Material.default.lighting (Shape.sphere Sphere.default)
      (Light.pointLight ⟨0, 0, -10⟩ Color.white) ⟨0, 0, 0⟩ ⟨0, 0, -1⟩ ⟨0, 0, -1⟩
      false = Except.ok ⟨19/10, 19/10, 19/10⟩ ∧
    Material.default.lighting (Shape.sphere Sphere.default)
      (Light.pointLight ⟨0, 0, -10⟩ Color.white) ⟨0, 0, 0⟩ ⟨0, 0, -1⟩ ⟨0, 0, -1⟩
      true = Except.ok ⟨1/10, 1/10, 1/10⟩ := by
  refine ⟨?_, ?_, ?_⟩
  · intro m object light point eyev normalv c hc
    simp [Material.lighting, hc]
  · with_unfolding_all decide
  · with_unfolding_all decide

/-- Claim C6, witness: the shadow branch of the main theorem applied to the
default (pattern-free) material, whose base color resolves to white by
computation. -/
theorem claim_C6_witness :
    Material.default.lighting (Shape.sphere Sphere.default)
      (Light.pointLight ⟨0, 0, -10⟩ Color.white) ⟨0, 0, 0⟩ ⟨0, 0, -1⟩ ⟨0, 0, -1⟩
      true =
      Except.ok ((Color.white *
        (Light.pointLight (⟨0, 0, -10⟩ : Point) Color.white).intensity) *
        Material.default.ambient) :=
  claim_C6.1 Material.default (Shape.sphere Sphere.default)
    (Light.pointLight ⟨0, 0, -10⟩ Color.white) ⟨0, 0, 0⟩ ⟨0, 0, -1⟩ ⟨0, 0, -1⟩
    Color.white rfl

/-- A stripe pattern with an identity transform, as in the source's tests. -/
def stripePat : Pattern :=
  Pattern.stripes [Color.white, Color.black] Matrix4.identity

/-- A sphere whose transform is the all-zero (singular) matrix, carrying the
stripe pattern. -/
def zeroTransformSphere : Shape :=
  Shape.sphere ⟨fun _ _ => 0, { Material.default with pattern := some stripePat }⟩

/-- Claim C2: when resolving a pattern during lighting meets a singular
primitive or pattern transform, `color_at_object` does return the explicit
absence `None` — but `Material::lighting` then panics on its `unwrap`
(`Except.error`) instead of propagating a skipped computation: the claim's
no-panic guarantee fails. Shown in general (any material whose pattern
resolution yields `None` makes `lighting` panic, for shadowed and unshadowed
calls alike) and on the concrete all-zero-transform sphere with a stripe
pattern. -/
theorem claim_C2 :
    (∀ (m : Material) (pat : Pattern) (object : Shape) (light : Light)
       (point : Point) (eyev normalv : Vec3) (in_shadow : Bool),
       m.pattern = some pat →
       pat.color_at_object object point = Except.ok none →
       m.lighting object light point eyev normalv in_shadow = Except.error ()) ∧
    stripePat.color_at_object zeroTransformSphere ⟨0, 0, 0⟩ = Except.ok none ∧
    zeroTransformSphere.material.lighting zeroTransformSphere
      (Light.pointLight ⟨0, 0, -10⟩ Color.white) ⟨0, 0, 0⟩ ⟨0, 0, -1⟩ ⟨0, 0, -1⟩
      false = Except.error () := by
  refine ⟨?_, ?_, ?_⟩
  · intro m pat object light point eyev normalv in_shadow hpat hres
    simp only [Material.lighting, Material.base_color, hpat, hres]
    rfl
  · with_unfolding_all decide
  · with_unfolding_all decide

/-- Claim C2, witness: the general panic statement applied to the singular
sphere, its stripe pattern, and a shadowed lighting call. -/
theorem claim_C2_witness :
    zeroTransformSphere.material.lighting zeroTransformSphere
      (Light.pointLight ⟨0, 0, -10⟩ Color.white) ⟨0, 0, 0⟩ ⟨0, 0, -1⟩ ⟨0, 0, -1⟩
      true = Except.error () :=
  claim_C2.1 zeroTransformSphere.material stripePat zeroTransformSphere
    (Light.pointLight ⟨0, 0, -10⟩ Color.white) ⟨0, 0, 0⟩ ⟨0, 0, -1⟩ ⟨0, 0, -1⟩
    true (by with_unfolding_all decide) (by with_unfolding_all decide)

theorem dot_self_pos (v : Vec3) (h : v ≠ (⟨0, 0, 0⟩ : Vec3)) : 0 < v.dot v := by
  have hle : (0 : ℚ) ≤ v.x * v.x + v.y * v.y + v.z * v.z :=
    add_nonneg (add_nonneg (mul_self_nonneg _) (mul_self_nonneg _)) (mul_self_nonneg _)
  rcases lt_or_eq_of_le hle with hlt | heq
  · exact hlt
  · exfalso
    have hsum : v.x * v.x + v.y * v.y + v.z * v.z = 0 := heq.symm
    have hx : v.x = 0 := mul_self_eq_zero.mp (le_antisymm
      (by linarith [mul_self_nonneg v.y, mul_self_nonneg v.z]) (mul_self_nonneg v.x))
    have hy : v.y = 0 := mul_self_eq_zero.mp (le_antisymm
      (by linarith [mul_self_nonneg v.x, mul_self_nonneg v.z]) (mul_self_nonneg v.y))
    have hz : v.z = 0 := mul_self_eq_zero.mp (le_antisymm
      (by linarith [mul_self_nonneg v.x, mul_self_nonneg v.y]) (mul_self_nonneg v.z))
    apply h
    have hv : v = ⟨v.x, v.y, v.z⟩ := rfl
    rw [hv, hx, hy, hz]

set_option maxRecDepth 8000 in
theorem identity_inverse : Matrix4.identity.inverse = some Matrix4.identity := by
  unfold Matrix4.inverse
  rw [if_neg (by with_unfolding_all decide : ¬Matrix4.identity.determinant = 0)]
  exact congrArg some (by with_unfolding_all decide)

set_option maxRecDepth 8000 in
/-- Claim C7: for every sphere with an invertible transform and every ray
whose local-space direction is nonzero, `Sphere::intersect` returns no
intersections exactly when the discriminant of the local quadratic is
negative, and otherwise exactly the two roots
`(-b - sqrt d) / 2a` and `(-b + sqrt d) / 2a`, in that order, with
`t1 ≤ t2` (negative, equal, and behind-the-origin roots included,
unfiltered); in particular the ray from `(0,0,-5)` along `(0,0,1)` meets the
unit sphere at `t = 4` and `t = 6`, and the same direction from the origin
yields `t = -1` and `t = 1`. -/
theorem claim_C7 :
    (∀ (s : Sphere) (r : Ray) (inv : Matrix4) (a b c : ℚ),
      s.transform.inverse = some inv →
      sphereQuadratic (r.transform inv) = (a, b, c) →
      (r.transform inv).direction ≠ (⟨0, 0, 0⟩ : Vec3) →
      (b * b - 4 * a * c < 0 → s.intersect r = none) ∧
      (0 ≤ b * b - 4 * a * c →
        s.intersect r =
          some [⟨(-b - ratSqrt (b * b - 4 * a * c)) / (2 * a), Shape.sphere s⟩,
                ⟨(-b + ratSqrt (b * b - 4 * a * c)) / (2 * a), Shape.sphere s⟩] ∧
        (-b - ratSqrt (b * b - 4 * a * c)) / (2 * a) ≤
          (-b + ratSqrt (b * b - 4 * a * c)) / (2 * a))) ∧
    Sphere.default.intersect ⟨⟨0, 0, -5⟩, ⟨0, 0, 1⟩⟩ =
      some [⟨4, Shape.sphere Sphere.default⟩, ⟨6, Shape.sphere Sphere.default⟩] ∧
    Sphere.default.intersect ⟨⟨0, 0, 0⟩, ⟨0, 0, 1⟩⟩ =
      some [⟨-1, Shape.sphere Sphere.default⟩, ⟨1, Shape.sphere Sphere.default⟩] := by
  refine ⟨?_, ?_, ?_⟩
  · intro s r inv a b c hinv hq hd
    have ha : (r.transform inv).direction.dot (r.transform inv).direction = a :=
      congrArg Prod.fst hq
    have hapos : (0 : ℚ) < a := ha ▸ dot_self_pos _ hd
    have hbody : s.intersect r =
        (if b * b - 4 * a * c < 0 then none
         else some [⟨(-b - ratSqrt (b * b - 4 * a * c)) / (2 * a), Shape.sphere s⟩,
                    ⟨(-b + ratSqrt (b * b - 4 * a * c)) / (2 * a), Shape.sphere s⟩]) := by
      simp only [Sphere.intersect, hinv]
      rw [hq]
    constructor
    · intro hneg
      rw [hbody, if_pos hneg]
    · intro hnonneg
      refine ⟨by rw [hbody, if_neg (not_lt.mpr hnonneg)], ?_⟩
      have h2a : (0 : ℚ) < 2 * a := by linarith
      rw [div_le_div_iff_of_pos_right h2a]
      have := ratSqrt_nonneg (b * b - 4 * a * c)
      linarith
  · with_unfolding_all decide
  · with_unfolding_all decide

/-- Claim C7, witness: the main statement applied to the default unit sphere
(inverse transform the identity, verified by computation) and the ray from
`(0,0,-5)` along `(0,0,1)`, whose local quadratic is `(1, -10, 24)` with
discriminant `4 ≥ 0`. -/
theorem claim_C7_witness :
    Sphere.default.intersect ⟨⟨0, 0, -5⟩, ⟨0, 0, 1⟩⟩ =
      some [⟨(-(-10) - ratSqrt ((-10) * (-10) - 4 * 1 * 24)) / (2 * 1),
              Shape.sphere Sphere.default⟩,
            ⟨(-(-10) + ratSqrt ((-10) * (-10) - 4 * 1 * 24)) / (2 * 1),
              Shape.sphere Sphere.default⟩] ∧
    (-(-10 : ℚ) - ratSqrt ((-10) * (-10) - 4 * 1 * 24)) / (2 * 1) ≤
      (-(-10) + ratSqrt ((-10) * (-10) - 4 * 1 * 24)) / (2 * 1) :=
  (claim_C7.1 Sphere.default ⟨⟨0, 0, -5⟩, ⟨0, 0, 1⟩⟩ Matrix4.identity 1 (-10) 24
    identity_inverse (by with_unfolding_all decide)
    (by with_unfolding_all decide)).2 (by norm_num)

theorem stochasticLoop_count (samples : SampleOracle) :
    ∀ (m k : ℕ) (color : Color), (stochasticLoop samples m k color).2 = k + m := by
  intro m
  induction m with
  | zero => intro k color; rfl
  | succ n ih =>
    intro k color
    simp only [stochasticLoop]
    rw [ih]
    omega

/-- Claim C10: `Camera::with_antialiasing` assigns only the outer `aa.level`
field — the sampling method (with its internal sample count and tolerance),
and every other camera field, are untouched; consequently a camera whose
method is the default `Stochastic` (5 samples) still draws exactly 5 samples
per pixel after `with_antialiasing(level)`, not `level`. -/
theorem claim_C10 :
    ∀ (c : Camera) (level : ℕ),
      ((c.with_antialiasing level).aa.level = level ∧
       (c.with_antialiasing level).aa.method = c.aa.method ∧
       (c.with_antialiasing level).aa.error_tolerance = c.aa.error_tolerance ∧
       (c.with_antialiasing level).hsize = c.hsize ∧
       (c.with_antialiasing level).vsize = c.vsize ∧
       (c.with_antialiasing level).fov = c.fov ∧
       (c.with_antialiasing level).transform = c.transform ∧
       (c.with_antialiasing level).pixel_size = c.pixel_size ∧
       (c.with_antialiasing level).half_width = c.half_width ∧
       (c.with_antialiasing level).half_height = c.half_height) ∧
      (c.aa.method = AAMethod.stochastic Stochastic.default →
        ∀ (s : Stochastic) (samples : SampleOracle),
          (c.with_antialiasing level).aa.method = AAMethod.stochastic s →
          s.sampleCount samples = 5 ∧
          (level ≠ 5 → s.sampleCount samples ≠ level)) := by
  intro c level
  refine ⟨⟨rfl, rfl, rfl, rfl, rfl, rfl, rfl, rfl, rfl, rfl⟩, ?_⟩
  intro hm s samples hm2
  have hm2' : c.aa.method = AAMethod.stochastic s := hm2
  rw [hm] at hm2'
  injection hm2' with hs
  subst hs
  have h5 : Stochastic.default.sampleCount samples = 5 := by
    show (stochasticLoop samples Stochastic.default.level 0 Color.black).2 = 5
    rw [stochasticLoop_count]
    rfl
  exact ⟨h5, fun hne heq => hne (heq.symm.trans h5)⟩

/-- A concrete camera with the default anti-aliasing configuration, used by
the witnesses. -/
def testCamera : Camera :=
  ⟨160, 120, 1, Matrix4.identity, 1, 1, 1, AntiAliasing.default⟩

/-- Claim C10, witness: setting level 8 on the default-configured camera
still yields 5 stochastic samples. -/
theorem claim_C10_witness :
    Stochastic.default.sampleCount (fun _ => none) = 5 ∧
    ((8 : ℕ) ≠ 5 → Stochastic.default.sampleCount (fun _ => none) ≠ 8) :=
  (claim_C10 testCamera 8).2 rfl Stochastic.default (fun _ => none) rfl

theorem color_add_def (a b : Color) : a + b = ⟨a.r + b.r, a.g + b.g, a.b + b.b⟩ :=
  rfl

theorem color_add_assoc (a b c : Color) : a + b + c = a + (b + c) := by
  simp [color_add_def, add_assoc]

theorem color_black_add (c : Color) : Color.black + c = c := by
  simp [color_add_def, Color.black]

theorem color_add_black (c : Color) : c + Color.black = c := by
  simp [color_add_def, Color.black]

theorem colorSum_foldl_shift :
    ∀ (l : List Color) (a b : Color), l.foldl (· + ·) (a + b) = a + l.foldl (· + ·) b := by
  intro l
  induction l with
  | nil => intro a b; rfl
  | cons x l ih =>
    intro a b
    simp only [List.foldl_cons]
    rw [color_add_assoc, ih]

theorem colorSum_cons (x : Color) (l : List Color) :
    colorSum (x :: l) = x + colorSum l := by
  show l.foldl (· + ·) (Color.black + x) = x + colorSum l
  rw [color_black_add]
  conv_lhs => rw [show x = x + Color.black from (color_add_black x).symm]
  rw [colorSum_foldl_shift]
  rfl

theorem stochasticLoop_value (samples : SampleOracle) :
    ∀ (m k : ℕ) (color : Color),
      (stochasticLoop samples m k color).1 =
        color + colorSum ((List.range' k m).map (fun i => (samples i).getD Color.black)) := by
  intro m
  induction m with
  | zero => intro k color; simp [stochasticLoop, colorSum, color_add_black]
  | succ n ih =>
    intro k color
    simp only [stochasticLoop, List.range'_succ, List.map_cons]
    rw [ih, colorSum_cons]
    cases hk : samples k with
    | none => simp [hk, Option.getD, color_black_add]
    | some c => simp [hk, Option.getD, color_add_assoc]

theorem msInitLoop_count (samples : SampleOracle) :
    ∀ (m k : ℕ) (st : MsAcc), (msInitLoop samples m k st).2 = k + m := by
  intro m
  induction m with
  | zero => intro k st; rfl
  | succ n ih =>
    intro k st
    simp only [msInitLoop]
    rw [ih]
    omega

theorem msAdaptiveLoop_stop (tolerance : ℚ) (samples : SampleOracle) :
    ∀ (fuel k : ℕ) (st st' : MsAcc) (k' : ℕ),
      msAdaptiveLoop tolerance samples fuel k st = some (st', k') →
      color_mean_variance st'.n st'.color_squared_sum st'.color_sum ≤
        tolerance * tolerance ∧ k ≤ k' := by
  intro fuel
  induction fuel with
  | zero =>
    intro k st st' k' h
    exact absurd h (by simp [msAdaptiveLoop])
  | succ n ih =>
    intro k st st' k' h
    by_cases hcond : tolerance * tolerance <
        color_mean_variance st.n st.color_squared_sum st.color_sum
    · rw [msAdaptiveLoop, if_pos hcond] at h
      obtain ⟨hvar, hk⟩ := ih (k + 1) _ st' k' h
      exact ⟨hvar, by omega⟩
    · rw [msAdaptiveLoop, if_neg hcond] at h
      cases h
      exact ⟨le_of_not_lt hcond, le_refl k⟩

/-- Claim C8: the `Stochastic` strategy draws exactly `level` samples and
returns their sum divided by `level`; the `Multisampling` strategy's initial
phase draws exactly `level` samples, its adaptive phase exits only with the
variance-of-the-mean estimate at or below `tolerance^2` (and exits
immediately when the estimate is already there, continuing with one more
draw exactly when it is above), and any terminating multisampling run has
made at least `level` draws in total. -/
theorem claim_C8 :
    (∀ (s : Stochastic) (samples : SampleOracle),
      s.sampleCount samples = s.level ∧
      s.anti_alias samples =
        colorSum ((List.range s.level).map (fun i => (samples i).getD Color.black)) /
          (s.level : ℚ)) ∧
    (∀ (samples : SampleOracle) (level k : ℕ) (st : MsAcc),
      (msInitLoop samples level k st).2 = k + level) ∧
    (∀ (tolerance : ℚ) (samples : SampleOracle) (fuel k : ℕ) (st st' : MsAcc)
       (k' : ℕ),
      msAdaptiveLoop tolerance samples fuel k st = some (st', k') →
      color_mean_variance st'.n st'.color_squared_sum st'.color_sum ≤
        tolerance * tolerance ∧ k ≤ k') ∧
    (∀ (tolerance : ℚ) (samples : SampleOracle) (fuel k : ℕ) (st : MsAcc),
      color_mean_variance st.n st.color_squared_sum st.color_sum ≤
          tolerance * tolerance →
      msAdaptiveLoop tolerance samples (fuel + 1) k st = some (st, k)) ∧
    (∀ (tolerance : ℚ) (samples : SampleOracle) (fuel k : ℕ) (st : MsAcc),
      tolerance * tolerance <
          color_mean_variance st.n st.color_squared_sum st.color_sum →
      msAdaptiveLoop tolerance samples (fuel + 1) k st =
        msAdaptiveLoop tolerance samples fuel (k + 1)
          (match samples k with
           | some c => ⟨st.n + 1, st.color_squared_sum + c * c, st.color_sum + c⟩
           | none => st)) ∧
    (∀ (m : Multisampling) (samples : SampleOracle) (fuel : ℕ) (color : Color)
       (k' : ℕ),
      m.anti_alias samples fuel = some (color, k') → m.level ≤ k') := by
  refine ⟨?_, ?_, ?_, ?_, ?_, ?_⟩
  · intro s samples
    refine ⟨by rw [Stochastic.sampleCount, stochasticLoop_count]; omega, ?_⟩
    rw [Stochastic.anti_alias, stochasticLoop_value, color_black_add,
      List.range_eq_range']
  · intro samples level k st
    exact msInitLoop_count samples level k st
  · intro tolerance samples fuel k st st' k' h
    exact msAdaptiveLoop_stop tolerance samples fuel k st st' k' h
  · intro tolerance samples fuel k st h
    rw [msAdaptiveLoop, if_neg (not_lt.mpr h)]
  · intro tolerance samples fuel k st h
    rw [msAdaptiveLoop, if_pos h]
  · intro m samples fuel color k' h
    unfold Multisampling.anti_alias at h
    rcases hres : msAdaptiveLoop m.error_tolerance samples fuel
        (msInitLoop samples m.level 0 ⟨0, Color.black, Color.black⟩).2
        (msInitLoop samples m.level 0 ⟨0, Color.black, Color.black⟩).1
      with _ | stk
    · rw [hres] at h
      cases h
    · rw [hres] at h
      obtain ⟨st2, k2⟩ := stk
      have hstop := msAdaptiveLoop_stop m.error_tolerance samples fuel
        (msInitLoop samples m.level 0 ⟨0, Color.black, Color.black⟩).2
        (msInitLoop samples m.level 0 ⟨0, Color.black, Color.black⟩).1 st2 k2 hres
      have hcount := msInitLoop_count samples m.level 0 ⟨0, Color.black, Color.black⟩
      cases h
      omega

/-- Claim C8, witness: at tolerance 1 the accumulator after one black sample
has variance estimate 0 ≤ 1, so the adaptive loop stops immediately with it;
the stop lemma applied to that run confirms the exit condition; the
continuation equation fires on an accumulator with variance 1 > 1/4; and a
multisampling run at level 1 that terminates has made at least one draw. -/
theorem claim_C8_witness :
    (msAdaptiveLoop 1 (fun _ => some Color.black) 1 1 ⟨1, Color.black, Color.black⟩ =
      some (⟨1, Color.black, Color.black⟩, 1)) ∧
    (color_mean_variance (1 : ℚ) Color.black Color.black ≤ 1 * 1 ∧ (1 : ℕ) ≤ 1) ∧
    (msAdaptiveLoop (1/2) (fun _ => none) 1 0 ⟨1, ⟨1, 0, 0⟩, Color.black⟩ =
      msAdaptiveLoop (1/2) (fun _ => none) 0 1
        (match (fun _ => none : SampleOracle) 0 with
         | some c => ⟨(1 : ℚ) + 1, (⟨1, 0, 0⟩ : Color) + c * c, Color.black + c⟩
         | none => ⟨1, ⟨1, 0, 0⟩, Color.black⟩)) ∧
    ((⟨1, 1⟩ : Multisampling).level ≤ 1) := by
  have h1 := claim_C8.2.2.2.1 1 (fun _ => some Color.black) 0 1
    ⟨1, Color.black, Color.black⟩ (by with_unfolding_all decide)
  refine ⟨h1, ?_, ?_, ?_⟩
  · exact claim_C8.2.2.1 1 (fun _ => some Color.black) 1 1
      ⟨1, Color.black, Color.black⟩ ⟨1, Color.black, Color.black⟩ 1 h1
  · exact claim_C8.2.2.2.2.1 (1/2) (fun _ => none) 0 0 ⟨1, ⟨1, 0, 0⟩, Color.black⟩
      (by with_unfolding_all decide)
  · exact claim_C8.2.2.2.2.2 ⟨1, 1⟩ (fun _ => some Color.black) 1
      Color.black 1 (by with_unfolding_all decide)

theorem shape_intersect_object {o : Shape} {r : Ray} {xs : List Intersection}
    (h : o.intersect r = some xs) :
    (o.transform.inverse).isSome = true ∧ ∀ ix ∈ xs, ix.object = o := by
  cases o with
  | sphere sp =>
    rcases hinv : sp.transform.inverse with _ | inv
    · simp only [Shape.intersect, Sphere.intersect, hinv] at h
      exact Option.noConfusion h
    · simp only [Shape.intersect, Sphere.intersect, hinv] at h
      refine ⟨by simp [Shape.transform, hinv], ?_⟩
      split at h
      · cases h
      · cases h
        intro ix hix
        simp only [List.mem_cons, List.not_mem_nil, or_false] at hix
        rcases hix with h1 | h1 <;> rw [h1]
  | plane pl =>
    rcases hinv : pl.transform.inverse with _ | inv
    · simp only [Shape.intersect, Plane.intersect, hinv] at h
      exact Option.noConfusion h
    · simp only [Shape.intersect, Plane.intersect, hinv] at h
      refine ⟨by simp [Shape.transform, hinv], ?_⟩
      split at h
      · cases h
      · cases h
        intro ix hix
        simp only [IntersectionList.new, sortBy, insertBy, List.mem_singleton] at hix
        rw [hix]

theorem mem_intersect_world_inv {w : World} {r : Ray} {ixl : List Intersection}
    (h : w.intersect_world r = some ixl) :
    ∀ ix ∈ ixl,
      (ix.object.transform.inverse).isSome = true ∧ ix.object ∈ w.objects := by
  intro ix hix
  injection h with h
  subst h
  rw [IntersectionList.new, mem_sortBy] at hix
  obtain ⟨o, ho, hio⟩ := List.mem_flatMap.mp hix
  rcases hint : o.intersect r with _ | xs
  · rw [hint] at hio
    simp at hio
  · rw [hint] at hio
    simp only [Option.getD_some] at hio
    obtain ⟨hinv, hobj⟩ := shape_intersect_object hint
    rw [hobj ix hio]
    exact ⟨hinv, ho⟩

theorem normal_at_isSome {o : Shape} (h : (o.transform.inverse).isSome = true)
    (p : Point) : (o.normal_at p).isSome = true := by
  cases o with
  | sphere sp =>
    rcases hinv : sp.transform.inverse with _ | inv
    · rw [Shape.transform, hinv] at h
      cases h
    · simp [Shape.normal_at, Sphere.normal_at_world_pt, hinv]
  | plane pl =>
    rcases hinv : pl.transform.inverse with _ | inv
    · rw [Shape.transform, hinv] at h
      cases h
    · simp [Shape.normal_at, Plane.normal_at_world_pt, hinv]

theorem precompute_isOk {ix : Intersection}
    (h : (ix.object.transform.inverse).isSome = true) (ray : Ray)
    (xs : List Intersection) :
    ∃ d, PrecomputedData.new ix ray xs = Except.ok d ∧ d.object = ix.object := by
  unfold PrecomputedData.new
  rcases hn : ix.object.normal_at (ray.position ix.t) with _ | n
  · exact absurd (normal_at_isSome h (ray.position ix.t)) (by rw [hn]; simp)
  · exact ⟨_, rfl, rfl⟩

/-- Claim C9: every intersection delivered by `World::intersect_world` refers
to a shape whose transform is invertible (both shape intersectors bail out
before producing intersections otherwise), so `normal_at` on the stored copy
succeeds at every point and `PrecomputedData::new` never reaches its
singular-transform panic (`expect`) path. -/
theorem claim_C9 :
    ∀ (w : World) (r : Ray) (ixl : List Intersection),
      w.intersect_world r = some ixl →
      ∀ ix ∈ ixl,
        (ix.object.transform.inverse).isSome = true ∧
        (∀ p, (ix.object.normal_at p).isSome = true) ∧
        (∀ (ray : Ray) (xs : List Intersection),
          (PrecomputedData.new ix ray xs).isOk = true) := by
  intro w r ixl h ix hix
  obtain ⟨hinv, -⟩ := mem_intersect_world_inv h ix hix
  refine ⟨hinv, fun p => normal_at_isSome hinv p, fun ray xs => ?_⟩
  obtain ⟨d, hd, -⟩ := precompute_isOk hinv ray xs
  rw [hd]
  rfl

/-- A world holding one default unit sphere and no lights. -/
def defaultSphereWorld : World := ⟨[Shape.sphere Sphere.default], []⟩

/-- Claim C9, witness: the main statement applied to the intersection at
`t = 4` of the ray from `(0,0,-5)` along `(0,0,1)` with the default-sphere
world, the world intersection list being computed concretely. -/
theorem claim_C9_witness :
    ((⟨4, Shape.sphere Sphere.default⟩ : Intersection).object.transform.inverse).isSome
      = true ∧
    (∀ p, ((⟨4, Shape.sphere Sphere.default⟩ : Intersection).object.normal_at p).isSome
      = true) ∧
    (∀ (ray : Ray) (xs : List Intersection),
      (PrecomputedData.new ⟨4, Shape.sphere Sphere.default⟩ ray xs).isOk = true) :=
  claim_C9 defaultSphereWorld ⟨⟨0, 0, -5⟩, ⟨0, 0, 1⟩⟩
    [⟨4, Shape.sphere Sphere.default⟩, ⟨6, Shape.sphere Sphere.default⟩]
    (by with_unfolding_all decide) ⟨4, Shape.sphere Sphere.default⟩
    (by with_unfolding_all decide)

/-- A world all of whose shapes have invertible transforms and pattern-free
materials: the conditions under which the recursive shading pipeline can
never hit a panic path. -/
def World.wellFormed (w : World) : Prop :=
  (∀ o ∈ w.objects, (Shape.transform o).inverse.isSome = true) ∧
  (∀ o ∈ w.objects, (Shape.material o).pattern = none)

theorem lighting_ok_of_no_pattern {m : Material} (hm : m.pattern = none)
    (object : Shape) (light : Light) (point : Point) (eyev normalv : Vec3)
    (in_shadow : Bool) :
    ∃ c, m.lighting object light point eyev normalv in_shadow = Except.ok c := by
  simp only [Material.lighting, Material.base_color, hm]
  cases in_shadow
  · exact ⟨_, rfl⟩
  · exact ⟨_, rfl⟩

theorem mapM_ok {α β : Type} (f : α → Except Unit β) :
    ∀ l : List α, (∀ a ∈ l, ∃ b, f a = Except.ok b) →
      ∃ out, l.mapM f = Except.ok out := by
  intro l
  induction l with
  | nil => intro _; exact ⟨[], rfl⟩
  | cons a l ih =>
    intro h
    obtain ⟨b, hb⟩ := h a (List.mem_cons_self a l)
    obtain ⟨out, hout⟩ := ih (fun x hx => h x (List.mem_cons_of_mem a hx))
    refine ⟨b :: out, ?_⟩
    rw [List.mapM_cons, hb, hout]
    rfl

theorem reflected_color_ok_zero (w : World) (comps : PrecomputedData) :
    w.reflected_color comps 0 = Except.ok Color.black := by
  simp only [World.reflected_color]

theorem shade_hit_ok {w : World}
    (h2 : ∀ o ∈ w.objects, (Shape.material o).pattern = none)
    {comps : PrecomputedData} (hobj : comps.object ∈ w.objects) (n : ℕ)
    (hrefl : ∃ c, w.reflected_color comps n = Except.ok c) :
    ∃ c, w.shade_hit comps n = Except.ok c := by
  obtain ⟨parts, hparts⟩ := mapM_ok
    (fun l => comps.object.material.lighting comps.object l comps.over_point
      comps.eyev comps.normalv (w.is_shadowed comps.over_point l))
    w.lights
    (fun l _ => lighting_ok_of_no_pattern (h2 comps.object hobj) comps.object l
      comps.over_point comps.eyev comps.normalv (w.is_shadowed comps.over_point l))
  obtain ⟨c, hc⟩ := hrefl
  refine ⟨colorSum parts + c, ?_⟩
  simp only [World.shade_hit]
  rw [hparts, hc]
  rfl

theorem reflected_color_ok {w : World} (n : ℕ)
    (hca : ∀ r, ∃ c, w.color_at r n = Except.ok c) (comps : PrecomputedData) :
    ∃ c, w.reflected_color comps (n + 1) = Except.ok c := by
  by_cases hrefl : comps.object.material.reflective = 0
  · refine ⟨Color.black, ?_⟩
    simp only [World.reflected_color]
    rw [if_pos hrefl]
  · obtain ⟨c, hc⟩ := hca ⟨comps.over_point, comps.reflectv⟩
    refine ⟨c * comps.object.material.reflective, ?_⟩
    simp only [World.reflected_color]
    rw [if_neg hrefl, hc]
    rfl

theorem hit_mem {xs : List Intersection} {h : Intersection}
    (hh : IntersectionList.hit xs = some h) : h ∈ xs := by
  unfold IntersectionList.hit at hh
  exact (mem_sortBy _ _ _).mp
    (List.mem_of_mem_filter (List.mem_of_mem_head? (Option.mem_def.mpr hh)))

theorem color_at_ok_step {w : World} (hwf : w.wellFormed) (n : ℕ)
    (hrefl : ∀ comps, ∃ c, w.reflected_color comps n = Except.ok c) :
    ∀ r, ∃ c, w.color_at r n = Except.ok c := by
  intro r
  simp only [World.color_at, World.intersect_world]
  rcases hhit : IntersectionList.hit
      (IntersectionList.new (w.objects.flatMap (fun o => (o.intersect r).getD [])))
    with _ | hx
  · exact ⟨Color.black, rfl⟩
  · obtain ⟨hinv, hobjmem⟩ := mem_intersect_world_inv
      (rfl :
        w.intersect_world r =
          some (IntersectionList.new
            (w.objects.flatMap (fun o => (o.intersect r).getD []))))
      hx (hit_mem hhit)
    obtain ⟨d, hd, hdobj⟩ := precompute_isOk hinv r
      (IntersectionList.new (w.objects.flatMap (fun o => (o.intersect r).getD [])))
    obtain ⟨c, hc⟩ := shade_hit_ok hwf.2 (by rw [hdobj]; exact hobjmem) n (hrefl d)
    refine ⟨c, ?_⟩
    show (do
      let comps ← PrecomputedData.new hx r
        (IntersectionList.new (w.objects.flatMap (fun o => (o.intersect r).getD [])))
      w.shade_hit comps n) = Except.ok c
    rw [hd]
    exact hc

theorem color_at_ok {w : World} (hwf : w.wellFormed) :
    ∀ (n : ℕ) (r : Ray), ∃ c, w.color_at r n = Except.ok c := by
  intro n
  induction n with
  | zero =>
    exact color_at_ok_step hwf 0
      (fun comps => ⟨Color.black, reflected_color_ok_zero w comps⟩)
  | succ n ih => exact color_at_ok_step hwf (n + 1) (reflected_color_ok n ih)

/-- Claim C3: `reflected_color` returns black immediately at budget 0 and
whenever the hit material's reflective coefficient is 0; at budget `n + 1`
it equals `color_at` on the reflection ray from the bias-corrected point at
budget `n`, scaled by the reflective coefficient; and `color_at` — a total
function of the caller-supplied budget in this embedding, so it terminates
for every world, ray, and budget — evaluates without error on every
well-formed world (invertible transforms, pattern-free materials), which
covers two fully reflective parallel planes at every budget. -/
theorem claim_C3 :
    (∀ (w : World) (comps : PrecomputedData),
      w.reflected_color comps 0 = Except.ok Color.black) ∧
    (∀ (w : World) (comps : PrecomputedData) (n : ℕ),
      comps.object.material.reflective = 0 →
      w.reflected_color comps n = Except.ok Color.black) ∧
    (∀ (w : World) (comps : PrecomputedData) (n : ℕ),
      comps.object.material.reflective ≠ 0 →
      w.reflected_color comps (n + 1) =
        Except.map (fun c : Color => c * comps.object.material.reflective)
          (w.color_at ⟨comps.over_point, comps.reflectv⟩ n)) ∧
    (∀ w : World, w.wellFormed →
      ∀ (r : Ray) (n : ℕ), ∃ c, w.color_at r n = Except.ok c) := by
  refine ⟨reflected_color_ok_zero, ?_, ?_, ?_⟩
  · intro w comps n h
    cases n with
    | zero => exact reflected_color_ok_zero w comps
    | succ n =>
      simp only [World.reflected_color]
      rw [if_pos h]
  · intro w comps n h
    simp only [World.reflected_color]
    rw [if_neg h]
    rcases hres : w.color_at ⟨comps.over_point, comps.reflectv⟩ n with e | c
    · rfl
    · rfl
  · intro w hwf r n
    exact color_at_ok hwf n r

/-- The fully reflective default material. -/
def reflMat : Material := { Material.default with reflective := 1 }

/-- Two fully reflective parallel planes at `y = -1` and `y = 1` with a
point light between them: the mutually reflective scenario of the
specification. -/
def twoPlanesWorld : World :=
  ⟨[Shape.plane ⟨Matrix4.translation 0 (-1) 0, reflMat⟩,
    Shape.plane ⟨Matrix4.translation 0 1 0, reflMat⟩],
   [Light.pointLight ⟨0, 0, 0⟩ Color.white]⟩

/-- Claim C3, witness: on the two reflective parallel planes, the ray from
the light position straight up — parallel to neither plane normal's
extinction, bouncing between the planes — evaluates at budget 5 without
error. -/
theorem claim_C3_witness :
    ∃ c, twoPlanesWorld.color_at ⟨⟨0, 0, 0⟩, ⟨0, 1, 0⟩⟩ 5 = Except.ok c :=
  claim_C3.2.2.2 twoPlanesWorld
    ⟨by with_unfolding_all decide, by with_unfolding_all decide⟩
    ⟨⟨0, 0, 0⟩, ⟨0, 1, 0⟩⟩ 5
